import Mathlib

/-
Verification of `src/src/main/python/safetensors/json_to_bin.py`.

The file shallowly embeds `process_file` and the helpers it relies on.
JSON parsing itself is library code (`json.loads`); an input line is
therefore modelled as `Option JValue`: `none` for a line that raises
`json.JSONDecodeError`, `some v` for a line that parses to the JSON
value `v`.  Python floats carry no arithmetic here (they are parsed,
stored and written back), so their payload is modelled as `Rat`.
-/

namespace JsonToBin

/-- A JSON value as returned by `json.loads`.  Python distinguishes
`int` and `float` results (`isinstance(x, float)` at line 68 of the
source), so the two numeric shapes are separate constructors. -/
inductive JValue where
  | jnull
  | jbool (b : Bool)
  | jint (n : Int)
  | jfloat (q : Rat)
  | jstr (s : String)
  | jarr (elems : List JValue)
  | jobj (fields : List (String × JValue))

/-- Errors that abort `process_file` for one input file.  `indexError`,
`typeError` and `attributeError` are the uncaught Python exceptions the
per-line code can raise (only `JSONDecodeError` and `KeyError` are
caught at line 78); `stackError` is `torch.tensor` rejecting ragged or
non-numeric rows, `padError` is `pad_sequence` rejecting an empty list. -/
inductive PErr where
  | fileNotFound
  | fileExists
  | badExtension
  | indexError
  | typeError
  | attributeError
  | stackError
  | padError
deriving DecidableEq

/-- Python `dict.get` on a dict built by `json.loads`: the last binding
of a key wins (later duplicate keys overwrite earlier ones). -/
def jget : List (String × JValue) → String → Option JValue
  | [], _ => none
  | (k, v) :: rest, key =>
    match jget rest key with
    | some w => some w
    | none => if k = key then some v else none

/-- Line 72 of the source: `[ord(char) for char in docid]` for a string
docid — each character mapped to its ordinal code point. -/
def docidToCodes (s : String) : List Nat :=
  s.data.map Char.toNat

/-- Python `ord` applied to one iterated element: succeeds only on a
one-character string, otherwise `TypeError`. -/
def ordChar1 (s : String) : Except PErr Nat :=
  match s.data with
  | [c] => .ok c.toNat
  | _ => .error .typeError

/-- Left-to-right effectful map, aborting at the first error (the
evaluation order of a Python list comprehension). -/
def mapME {α β : Type} (f : α → Except PErr β) : List α → Except PErr (List β)
  | [] => .ok []
  | a :: t =>
    match f a with
    | .error e => .error e
    | .ok b =>
      match mapME f t with
      | .error e => .error e
      | .ok r => .ok (b :: r)

/-- Evaluation of `[ord(char) for char in docid]` for an arbitrary JSON value bound to
`docid`: strings iterate their characters; lists and dicts iterate
elements resp. keys, and `ord` then demands a one-character string;
everything else is not iterable (`TypeError`). -/
def ordAll : JValue → Except PErr (List Nat)
  | .jstr s => .ok (docidToCodes s)
  | .jarr xs =>
    mapME (fun x => match x with
      | .jstr s => ordChar1 s
      | _ => .error .typeError) xs
  | .jobj fields => mapME (fun kv => ordChar1 kv.1) fields
  | _ => .error .typeError

/-- Outcome of the loop body (lines 66–81) on one line. -/
inductive LineOutcome where
  | skip
  | add (vec : List JValue) (codes : List Nat)
  | addVecOnly (vec : List JValue)
  | abort (e : PErr)

/-- The body of the per-line `try` block, lines 67–77 of the source.
`entry.get("vector", [None])[0]` is evaluated, the `isinstance` float
test decides the branch, and the `except (JSONDecodeError, KeyError)`
handler turns exactly those two exceptions into a logged skip.  A
`KeyError` raised by `entry["docid"]` is caught only after
`vectors.append` has already run, which yields `addVecOnly`. -/
def stepLine : Option JValue → LineOutcome
  | none => .skip
  | some (.jobj fields) =>
    match (jget fields "vector").getD (.jarr [.jnull]) with
    | .jarr [] => .abort .indexError
    | .jarr (x :: rest) =>
      match x with
      | .jfloat q =>
        match jget fields "docid" with
        | none => .addVecOnly (.jfloat q :: rest)
        | some d =>
          match ordAll d with
          | .ok codes => .add (.jfloat q :: rest) codes
          | .error e => .abort e
      | _ => .skip
    | .jstr s =>
      match s.data with
      | [] => .abort .indexError
      | _ :: _ => .skip
    | .jobj _ => .skip
    | _ => .abort .typeError
  | some _ => .abort .attributeError

/-- The accumulation loop over all lines of the file (lines 65–81):
`vectors` and `docids` grow by appending; an uncaught exception aborts
the whole file. -/
def runLinesAux :
    List (List JValue) × List (List Nat) → List (Option JValue) →
    Except PErr (List (List JValue) × List (List Nat))
  | acc, [] => .ok acc
  | (vs, ds), l :: rest =>
    match stepLine l with
    | .skip => runLinesAux (vs, ds) rest
    | .add v c => runLinesAux (vs ++ [v], ds ++ [c]) rest
    | .addVecOnly v => runLinesAux (vs ++ [v], ds) rest
    | .abort e => .error e

/-- Processing every line of a file starting from empty accumulators. -/
def processLines (lines : List (Option JValue)) :
    Except PErr (List (List JValue) × List (List Nat)) :=
  runLinesAux ([], []) lines

/-- Coercion of one stored vector element by `torch.tensor(..., dtype=
torch.float64)` (line 88): floats, ints and bools are numeric, anything
else raises. -/
def toF : JValue → Except PErr Rat
  | .jfloat q => .ok q
  | .jint n => .ok (n : Rat)
  | .jbool b => .ok (if b then 1 else 0)
  | _ => .error .stackError

/-- Model of `torch.tensor(vectors, dtype=torch.float64)` (line 88): every
element must be numeric and all rows must share one length. -/
def mkVectors (vs : List (List JValue)) : Except PErr (List (List Rat)) :=
  match mapME (mapME toF) vs with
  | .error e => .error e
  | .ok [] => .ok []
  | .ok (r :: rest) =>
    if rest.all (fun r2 => r2.length = r.length) then .ok (r :: rest)
    else .error .stackError

/-- Length of the longest docid code sequence in the batch. -/
def maxLenD (ds : List (List Nat)) : Nat :=
  ds.foldl (fun m d => max m d.length) 0

/-- One row of `pad_sequence(..., batch_first=True)`: the sequence cast
to int64 followed by zero padding up to the batch maximum (line 89). -/
def padRow (len : Nat) (d : List Nat) : List Int :=
  d.map Int.ofNat ++ List.replicate (len - d.length) 0

/-- Model of `torch.nn.utils.rnn.pad_sequence` on a non-empty batch, rows kept in
original order. -/
def padSeq (ds : List (List Nat)) : List (List Int) :=
  ds.map (padRow (maxLenD ds))

/-- The `os.path.exists` facts `process_file` consults: the input file
and the two target output paths. -/
structure FS where
  inputExists : Bool
  vectorsExists : Bool
  docidsExists : Bool

def patJsonl : List Char := ['.', 'j', 's', 'o', 'n', 'l']

def patGz : List Char := ['.', 'g', 'z']

def patJson : List Char := ['.', 'j', 's', 'o', 'n']

/-- Python `str.endswith`. -/
def endsWithB (s : String) (pat : List Char) : Bool :=
  pat.isSuffixOf s.data

/-- Python `str.replace(pat, rep)` for a non-empty pattern: one
left-to-right scan replacing every non-overlapping occurrence.  The
fuel argument only bounds the recursion; `s.length` steps always
suffice. -/
def replaceAllAux (pat rep : List Char) : Nat → List Char → List Char
  | _, [] => []
  | 0, s => s
  | fuel + 1, c :: rest =>
    if pat.isPrefixOf (c :: rest) then
      rep ++ replaceAllAux pat rep fuel ((c :: rest).drop pat.length)
    else
      c :: replaceAllAux pat rep fuel rest

def replaceAllL (s pat rep : List Char) : List Char :=
  replaceAllAux pat rep s.length s

/-- Model of `os.path.basename`: the part of the path after the last slash. -/
def basenameOfL (l : List Char) : List Char :=
  (l.reverse.takeWhile (fun c => c ≠ '/')).reverse

/-- Lines 21–26 of the source: the base output name is the input's
basename with every occurrence of `.jsonl`, then `.gz`, then `.json`
replaced by the empty string, in that order. -/
def baseNameL (l : List Char) : List Char :=
  replaceAllL (replaceAllL (replaceAllL l patJsonl []) patGz []) patJson []

def baseName (p : String) : String :=
  ⟨baseNameL (basenameOfL p.data)⟩

/-- Lines 28–29: the two target output paths. -/
def targetPaths (outDir p : String) : String × String :=
  (outDir ++ "/" ++ baseName p ++ "_vectors.safetensors",
   outDir ++ "/" ++ baseName p ++ "_docids.safetensors")

/-- The opener chosen at lines 42–48: `.gz` first, then `.jsonl` or
`.json`, otherwise a `ValueError`. -/
inductive Opener where
  | gzipO
  | plainO
deriving DecidableEq

def openerFor (p : String) : Except PErr Opener :=
  if endsWithB p patGz then .ok .gzipO
  else if endsWithB p patJsonl || endsWithB p patJson then .ok .plainO
  else .error .badExtension

/-- A written tensor artifact: float64 rows for vectors, int64 rows for
docid codes (code point values never reach 2^63, so plain integers are
a faithful model of int64 here). -/
inductive Tensor where
  | floatT (rows : List (List Rat))
  | intT (rows : List (List Int))

abbrev WriteEvt := String × Tensor

/-- The whole of `process_file` (lines 14–117): existence check,
output-collision check, extension dispatch, the line loop, tensor
building and the two `save_file` calls, in source order.  The result
pairs the writes performed with the exception that aborted the task,
if any; every abort happens before the first `save_file`, so aborted
runs carry no writes. -/
def processFile (fs : FS) (overwrite : Bool) (outDir p : String)
    (lines : List (Option JValue)) : List WriteEvt × Option PErr :=
  if fs.inputExists = false then ([], some .fileNotFound)
  else if (!overwrite && (fs.vectorsExists || fs.docidsExists)) = true then
    ([], some .fileExists)
  else
    match openerFor p with
    | .error e => ([], some e)
    | .ok _ =>
      match processLines lines with
      | .error e => ([], some e)
      | .ok (vs, ds) =>
        match mkVectors vs with
        | .error e => ([], some e)
        | .ok v =>
          if ds.isEmpty = true then ([], some .padError)
          else
            ([((targetPaths outDir p).1, .floatT v),
              ((targetPaths outDir p).2, .intT (padSeq ds))], none)

/-- The counting predicate of the spec's row-count property: the line
parses as JSON, is an object, and its `vector` field is a non-empty
array whose first element is a float. -/
def claimValidLine : Option JValue → Bool
  | some (.jobj fields) =>
    match jget fields "vector" with
    | some (.jarr (.jfloat _ :: _)) => true
    | _ => false
  | _ => false

/-- The spec's decoder for docid code sequences: each code back to the
character with that code point. -/
def codesToString (codes : List Nat) : String :=
  ⟨codes.map Char.ofNat⟩

theorem le_foldlMax (ds : List (List Nat)) :
    ∀ a : Nat, a ≤ ds.foldl (fun m d => max m d.length) a := by
  induction ds with
  | nil => intro a; exact Nat.le_refl a
  | cons d t ih =>
    intro a
    exact Nat.le_trans (Nat.le_max_left a d.length) (ih (max a d.length))

theorem mem_le_foldlMax (ds : List (List Nat)) :
    ∀ (a : Nat) (d : List Nat), d ∈ ds →
      d.length ≤ ds.foldl (fun m d => max m d.length) a := by
  induction ds with
  | nil => intro a d h; cases h
  | cons e t ih =>
    intro a d h
    rcases List.mem_cons.1 h with rfl | h
    · exact Nat.le_trans (Nat.le_max_right a d.length) (le_foldlMax t (max a d.length))
    · exact ih (max a e.length) d h

theorem foldlMax_attained (ds : List (List Nat)) :
    ∀ a : Nat, ds.foldl (fun m d => max m d.length) a = a ∨
      ∃ d ∈ ds, ds.foldl (fun m d => max m d.length) a = d.length := by
  induction ds with
  | nil => intro a; exact Or.inl rfl
  | cons e t ih =>
    intro a
    rcases ih (max a e.length) with h | ⟨d, hd, h⟩
    · rcases max_choice a e.length with hm | hm
      · exact Or.inl (by rw [List.foldl_cons, h, hm])
      · exact Or.inr ⟨e, List.mem_cons_self e t, by rw [List.foldl_cons, h, hm]⟩
    · exact Or.inr ⟨d, List.mem_cons_of_mem e hd, by rw [List.foldl_cons, h]⟩

theorem mem_le_maxLenD (ds : List (List Nat)) (d : List Nat) (h : d ∈ ds) :
    d.length ≤ maxLenD ds :=
  mem_le_foldlMax ds 0 d h

theorem maxLenD_attained (ds : List (List Nat)) (h : ds ≠ []) :
    ∃ d ∈ ds, d.length = maxLenD ds := by
  rcases foldlMax_attained ds 0 with h0 | ⟨d, hd, hlen⟩
  · match ds, h with
    | e :: t, _ =>
      refine ⟨e, List.mem_cons_self e t, Nat.le_antisymm ?_ ?_⟩
      · exact mem_le_maxLenD (e :: t) e (List.mem_cons_self e t)
      · rw [maxLenD, h0]; exact Nat.zero_le _
  · exact ⟨d, hd, hlen.symm⟩

theorem mapME_ok_length {α β : Type} (f : α → Except PErr β) :
    ∀ (l : List α) (r : List β), mapME f l = .ok r → r.length = l.length := by
  intro l
  induction l with
  | nil => intro r h; cases h; rfl
  | cons a t ih =>
    intro r h
    cases hf : f a with
    | error e => simp [mapME, hf] at h
    | ok b =>
      cases hm : mapME f t with
      | error e => simp [mapME, hf, hm] at h
      | ok rr =>
        simp [mapME, hf, hm] at h
        subst h
        simp [ih rr hm]

theorem mapME_error_pred {α β : Type} (f : α → Except PErr β) (E : PErr)
    (hf : ∀ a e, f a = .error e → e = E) :
    ∀ (l : List α) (e : PErr), mapME f l = .error e → e = E := by
  intro l
  induction l with
  | nil => intro e h; cases h
  | cons a t ih =>
    intro e h
    cases hfa : f a with
    | error e2 =>
      simp [mapME, hfa] at h
      subst h
      exact hf a _ hfa
    | ok b =>
      cases hm : mapME f t with
      | error e2 =>
        simp [mapME, hfa, hm] at h
        subst h
        exact ih _ hm
      | ok rr => simp [mapME, hfa, hm] at h

theorem mkVectors_ok_length (vs : List (List JValue)) (v : List (List Rat))
    (h : mkVectors vs = .ok v) : v.length = vs.length := by
  cases hm : mapME (mapME toF) vs with
  | error e => simp [mkVectors, hm] at h
  | ok rows =>
    match rows, hm with
    | [], hm =>
      simp [mkVectors, hm] at h
      subst h
      exact mapME_ok_length _ vs [] hm
    | r :: rest, hm =>
      simp [mkVectors, hm] at h
      split at h
      · simp at h
        subst h
        exact mapME_ok_length _ vs (r :: rest) hm
      · simp at h

theorem mkVectors_error_stack (vs : List (List JValue)) (e : PErr)
    (h : mkVectors vs = .error e) : e = .stackError := by
  have hrow : ∀ (r : List JValue) (e2 : PErr), mapME toF r = .error e2 → e2 = .stackError := by
    intro r e2 hr
    refine mapME_error_pred toF .stackError ?_ r e2 hr
    intro a e3 ha
    cases a <;> simp_all [toF]
  cases hm : mapME (mapME toF) vs with
  | error e2 =>
    simp [mkVectors, hm] at h
    subst h
    exact mapME_error_pred (mapME toF) .stackError hrow vs _ hm
  | ok rows =>
    match rows, hm with
    | [], hm => simp [mkVectors, hm] at h
    | r :: rest, hm =>
      simp [mkVectors, hm] at h
      split at h
      · simp at h
      · simp at h
        simp_all

theorem runLinesAux_len :
    ∀ (lines : List (Option JValue)) (vs0 : List (List JValue)) (ds0 : List (List Nat))
      (vs : List (List JValue)) (ds : List (List Nat)),
      runLinesAux (vs0, ds0) lines = .ok (vs, ds) →
      ds0.length ≤ vs0.length → ds.length ≤ vs.length := by
  intro lines
  induction lines with
  | nil =>
    intro vs0 ds0 vs ds h hle
    cases h
    exact hle
  | cons l rest ih =>
    intro vs0 ds0 vs ds h hle
    cases hs : stepLine l with
    | skip => rw [runLinesAux, hs] at h; exact ih vs0 ds0 vs ds h hle
    | add v c =>
      rw [runLinesAux, hs] at h
      refine ih (vs0 ++ [v]) (ds0 ++ [c]) vs ds h ?_
      simp [Nat.succ_le_succ hle]
    | addVecOnly v =>
      rw [runLinesAux, hs] at h
      refine ih (vs0 ++ [v]) ds0 vs ds h ?_
      simp
      omega
    | abort e => rw [runLinesAux, hs] at h; cases h

theorem processLines_len (lines : List (Option JValue))
    (vs : List (List JValue)) (ds : List (List Nat))
    (h : processLines lines = .ok (vs, ds)) : ds.length ≤ vs.length :=
  runLinesAux_len lines [] [] vs ds h (Nat.le_refl 0)

theorem replaceAllAux_skip (c0 : Char) (pt rep : List Char) :
    ∀ (stem r : List Char) (fuel : Nat),
      (∀ c ∈ stem, c ≠ c0) → stem.length + r.length ≤ fuel →
      replaceAllAux (c0 :: pt) rep fuel (stem ++ r)
        = stem ++ replaceAllAux (c0 :: pt) rep (fuel - stem.length) r := by
  intro stem
  induction stem with
  | nil => intro r fuel hc hf; simp
  | cons c stem2 ih =>
    intro r fuel hc hf
    match fuel, hf with
    | 0, hf => simp only [List.length_cons] at hf; omega
    | fuel2 + 1, hf =>
      have hcne : (c0 == c) = false := by
        have := hc c (List.mem_cons_self c stem2)
        simp [Ne.symm this]
      rw [List.cons_append, replaceAllAux]
      simp only [List.isPrefixOf, hcne, Bool.false_and, if_neg (by simp : ¬false = true)]
      have hrec := ih r fuel2 (fun c2 hc2 => hc c2 (List.mem_cons_of_mem c hc2)) (by
        simp [List.length_cons] at hf
        omega)
      rw [hrec]
      simp [Nat.succ_sub_succ]

theorem replaceAllL_append_skip (c0 : Char) (pt rep : List Char) (stem r : List Char)
    (h : ∀ c ∈ stem, c ≠ c0) :
    replaceAllL (stem ++ r) (c0 :: pt) rep = stem ++ replaceAllL r (c0 :: pt) rep := by
  rw [replaceAllL, List.length_append,
    replaceAllAux_skip c0 pt rep stem r (stem.length + r.length) h (Nat.le_refl _)]
  simp [replaceAllL]

theorem takeWhile_all_eq {p : Char → Bool} :
    ∀ (l : List Char), (∀ c ∈ l, p c = true) → l.takeWhile p = l := by
  intro l
  induction l with
  | nil => intro h; rfl
  | cons c t ih =>
    intro h
    rw [List.takeWhile_cons, h c (List.mem_cons_self c t)]
    simp [ih (fun c2 hc2 => h c2 (List.mem_cons_of_mem c hc2))]

theorem basenameOfL_noslash (l : List Char) (h : ∀ c ∈ l, c ≠ '/') :
    basenameOfL l = l := by
  rw [basenameOfL, takeWhile_all_eq]
  · exact List.reverse_reverse l
  · intro c hc
    simp [h c (List.mem_reverse.1 hc)]

theorem map_ofNat_toNat : ∀ (l : List Char), l.map (fun c => Char.ofNat c.toNat) = l := by
  intro l
  induction l with
  | nil => rfl
  | cons c t ih => simp [ih, Char.ofNat_toNat]

def c1Lines : List (Option JValue) :=
  [some (.jobj [("vector", .jarr []), ("docid", .jstr "x")]),
   some (.jobj [("vector", .jarr [.jfloat 1]), ("docid", .jstr "a")])]

/-- Claim C1: the number of vector rows in the output is claimed to equal
the number of lines that parse as valid JSON with a non-empty `vector`
array starting with a float, all other lines contributing zero rows.
The code violates this: on `c1Lines` the claim-side count is 1, but the
line whose `vector` is the empty array makes `entry.get("vector",
[None])[0]` raise an uncaught `IndexError`, so the whole file aborts and
no output rows are produced at all. -/
theorem c1_row_count_empty_vector_aborts :
    List.countP claimValidLine c1Lines = 1 ∧
    processFile ⟨true, false, false⟩ true "out" "f.json" c1Lines =
      ([], some .indexError) :=
  ⟨rfl, rfl⟩

def c2Lines : List (Option JValue) :=
  [some (.jobj [("vector", .jarr []), ("docid", .jstr "x")]),
   some (.jobj [("vector", .jarr [.jfloat 1, .jfloat 2]), ("docid", .jstr "b")])]

/-- Claim C2: a line whose `vector` field is the empty array (here
`{"vector": [], "docid": "x"}`) is claimed to be skipped with a warning,
contributing zero rows and leaving the rest of the file processed.  The
code instead raises an uncaught `IndexError` from `[][0]` (only
`JSONDecodeError` and `KeyError` are caught), aborting the file before
the following valid line is processed and before anything is written. -/
theorem c2_empty_vector_not_skipped :
    processLines c2Lines = .error .indexError ∧
    processFile ⟨true, false, false⟩ true "out" "g.jsonl" c2Lines =
      ([], some .indexError) :=
  ⟨rfl, rfl⟩

def c3Lines : List (Option JValue) :=
  [some (.jobj [("vector", .jarr [.jfloat 1])])]

/-- Claim C3: the accumulated vectors and docid-code sequences are
claimed to stay index-aligned with equal length for every sequence of
input lines, including lines with a valid vector but no `docid` field.
The code violates this: `vectors.append` runs before `entry["docid"]`
raises `KeyError`, and the handler then swallows the exception, so a
line with a valid vector and missing `docid` leaves `vectors` one entry
longer than `docids`. -/
theorem c3_missing_docid_misaligns :
    ∃ vs ds, processLines c3Lines = .ok (vs, ds) ∧
      vs.length = 1 ∧ ds.length = 0 :=
  ⟨[[.jfloat 1]], [], rfl, rfl, rfl⟩

/-- Claim C5: the docid transform maps each character to its ordinal
code point (this is exactly what line 72 computes, as the `ordAll`
conjunct records), one integer per character, and decoding the codes
reproduces the original string on ASCII input. -/
theorem c5_docid_transform (s : String) (h : ∀ c ∈ s.data, c.toNat < 128) :
    codesToString (docidToCodes s) = s ∧
    (docidToCodes s).length = s.length ∧
    ordAll (.jstr s) = .ok (docidToCodes s) := by
  refine ⟨?_, ?_, rfl⟩
  · show String.mk ((s.data.map Char.toNat).map Char.ofNat) = s
    rw [List.map_map]
    rw [show (Char.ofNat ∘ Char.toNat) = (fun c => Char.ofNat c.toNat) from rfl]
    rw [map_ofNat_toNat]
  · show (s.data.map Char.toNat).length = s.data.length
    rw [List.length_map]

theorem c5_docid_transform_witness :
    docidToCodes "ab" = [97, 98] ∧
    codesToString (docidToCodes "ab") = "ab" :=
  ⟨by decide, (c5_docid_transform "ab" (by decide)).1⟩

/-- Claim C6: with the overwrite flag unset and either target output
path already present, `process_file` raises `FileExistsError` at lines
31–35, before the reader, the tensor builder or either `save_file` call
runs: the task ends with no write performed. -/
theorem c6_collision_fails_before_write (fs : FS) (ov : Bool) (outDir p : String)
    (lines : List (Option JValue))
    (h1 : fs.inputExists = true) (h2 : ov = false)
    (h3 : (fs.vectorsExists || fs.docidsExists) = true) :
    processFile fs ov outDir p lines = ([], some .fileExists) := by
  subst h2
  unfold processFile
  rw [h1, h3]
  rfl

theorem c6_collision_fails_before_write_witness :
    processFile ⟨true, true, false⟩ false "out" "f.json" [] =
      ([], some .fileExists) :=
  c6_collision_fails_before_write ⟨true, true, false⟩ false "out" "f.json" [] rfl rfl rfl

/-- Claim C4: when the line loop succeeds with a non-empty docid batch
and the vector tensor stacks, the written identifier array is exactly
`pad_sequence` of the accumulated docid code rows: one row per valid
record in original order, every row of length equal to the longest
docid code sequence in the file, each row being the record's code
sequence followed by zeros. -/
theorem c4_padding (fs : FS) (ov : Bool) (outDir p : String)
    (lines : List (Option JValue)) (vs : List (List JValue))
    (ds : List (List Nat)) (v : List (List Rat)) (o : Opener)
    (h1 : fs.inputExists = true)
    (h2 : (!ov && (fs.vectorsExists || fs.docidsExists)) = false)
    (h3 : openerFor p = .ok o)
    (h4 : processLines lines = .ok (vs, ds))
    (h5 : mkVectors vs = .ok v)
    (h6 : ds ≠ []) :
    processFile fs ov outDir p lines =
      ([((targetPaths outDir p).1, .floatT v),
        ((targetPaths outDir p).2, .intT (padSeq ds))], none) ∧
    (padSeq ds).length = ds.length ∧
    (∀ i, i < ds.length →
      ((padSeq ds).getD i []).length = maxLenD ds ∧
      (padSeq ds).getD i [] =
        (ds.getD i []).map Int.ofNat ++
          List.replicate (maxLenD ds - (ds.getD i []).length) 0) ∧
    (∀ d ∈ ds, d.length ≤ maxLenD ds) ∧
    (∃ d ∈ ds, d.length = maxLenD ds) := by
  have hemp : ds.isEmpty = false := by
    cases ds with
    | nil => exact absurd rfl h6
    | cons a t => rfl
  constructor
  · unfold processFile
    simp only [h1, h2, h3, h4, h5, hemp]
    rfl
  refine ⟨by simp [padSeq], ?_, fun d hd => mem_le_maxLenD ds d hd, maxLenD_attained ds h6⟩
  intro i hi
  have hget : ds[i]? = some ds[i] := List.getElem?_eq_getElem hi
  have hmem : ds[i] ∈ ds := List.getElem_mem hi
  have hgd : ds.getD i [] = ds[i] := by
    rw [List.getD_eq_getElem?_getD, hget]
    rfl
  have hpd : (padSeq ds).getD i [] = padRow (maxLenD ds) ds[i] := by
    rw [padSeq, List.getD_eq_getElem?_getD, List.getElem?_map, hget]
    rfl
  constructor
  · have hle := mem_le_maxLenD ds _ hmem
    rw [hpd]
    simp [padRow]
    omega
  · rw [hpd, hgd, padRow]

def c4Lines : List (Option JValue) :=
  [some (.jobj [("vector", .jarr [.jfloat 1]), ("docid", .jstr "ab")]),
   some (.jobj [("vector", .jarr [.jfloat 2]), ("docid", .jstr "c")])]

theorem c4_padding_witness :
    processFile ⟨true, false, false⟩ true "out" "f.json" c4Lines =
      ([((targetPaths "out" "f.json").1, .floatT [[1], [2]]),
        ((targetPaths "out" "f.json").2, .intT (padSeq [[97, 98], [99]]))], none) ∧
    (padSeq [[97, 98], [99]]).length = ([[97, 98], [99]] : List (List Nat)).length ∧
    (∀ i, i < ([[97, 98], [99]] : List (List Nat)).length →
      ((padSeq [[97, 98], [99]]).getD i []).length = maxLenD [[97, 98], [99]] ∧
      (padSeq [[97, 98], [99]]).getD i [] =
        (([[97, 98], [99]] : List (List Nat)).getD i []).map Int.ofNat ++
          List.replicate (maxLenD [[97, 98], [99]] -
            (([[97, 98], [99]] : List (List Nat)).getD i []).length) 0) ∧
    (∀ d ∈ ([[97, 98], [99]] : List (List Nat)), d.length ≤ maxLenD [[97, 98], [99]]) ∧
    (∃ d ∈ ([[97, 98], [99]] : List (List Nat)), d.length = maxLenD [[97, 98], [99]]) :=
  c4_padding ⟨true, false, false⟩ true "out" "f.json" c4Lines
    [[.jfloat 1], [.jfloat 2]] [[97, 98], [99]] [[1], [2]] .plainO
    rfl rfl rfl rfl rfl (by simp)

def c9Lines : List (Option JValue) :=
  [some (.jobj [("vector", .jarr [.jfloat 1]), ("docid", .jstr "d")]),
   none,
   some (.jobj [("vector", .jarr [.jfloat 2]), ("docid", .jstr "e")])]

/-- Claim C9: with the overwrite flag set, the result of processing a
file — including both written tensors — depends only on the input
file's contents, not on whether the output paths already exist, so a
second run over existing outputs reproduces identical arrays. -/
theorem c9_overwrite_deterministic (fs fs2 : FS) (outDir p : String)
    (lines : List (Option JValue))
    (h1 : fs.inputExists = true) (h2 : fs2.inputExists = true) :
    processFile fs true outDir p lines = processFile fs2 true outDir p lines := by
  unfold processFile
  rw [h1, h2]
  rfl

theorem c9_overwrite_deterministic_witness :
    processFile ⟨true, false, false⟩ true "out" "f.json" c9Lines =
      processFile ⟨true, true, true⟩ true "out" "f.json" c9Lines :=
  c9_overwrite_deterministic ⟨true, false, false⟩ ⟨true, true, true⟩ "out" "f.json"
    c9Lines rfl rfl

theorem baseNameL_append (stem r : List Char) (hno : ∀ c ∈ stem, c ≠ '.') :
    baseNameL (stem ++ r) = stem ++ baseNameL r := by
  rw [baseNameL, baseNameL]
  rw [show patJsonl = '.' :: ['j', 's', 'o', 'n', 'l'] from rfl,
    show patGz = '.' :: ['g', 'z'] from rfl,
    show patJson = '.' :: ['j', 's', 'o', 'n'] from rfl]
  rw [replaceAllL_append_skip '.' ['j', 's', 'o', 'n', 'l'] [] stem r hno]
  rw [replaceAllL_append_skip '.' ['g', 'z'] [] stem _ hno]
  rw [replaceAllL_append_skip '.' ['j', 's', 'o', 'n'] [] stem _ hno]

/-- Claim C7 (counterexample): the claim says only a trailing
`.gz`/`.json`/`.jsonl` suffix is stripped, leaving the rest of the name
unchanged, which for input `my.gzdata.json` would give base
`my.gzdata`.  The code's chained `str.replace` calls remove the
mid-name `.gz` occurrence too, giving base `mydata`. -/
theorem c7_replace_not_suffix_strip :
    baseName "my.gzdata.json" = "mydata" ∧
    targetPaths "out" "my.gzdata.json" =
      ("out/mydata_vectors.safetensors", "out/mydata_docids.safetensors") ∧
    ("mydata" : String) ≠ "my.gzdata" :=
  ⟨rfl, rfl, by decide⟩

/-- Claim C7 (amended): the base name is the input file's basename with
every occurrence of `.jsonl`, then `.gz`, then `.json` removed, in that
order; when the name is a stem containing no `.` or `/` followed by one
of the extensions `.json`, `.jsonl`, `.gz`, this coincides with the
claimed suffix stripping and the two output artifacts are
`<stem>_vectors.safetensors` and `<stem>_docids.safetensors`. -/
theorem c7_output_names (outDir stem : String) (ext : List Char)
    (hext : ext = patJson ∨ ext = patJsonl ∨ ext = patGz)
    (hno : ∀ c ∈ stem.data, c ≠ '.' ∧ c ≠ '/') :
    targetPaths outDir (stem ++ (⟨ext⟩ : String)) =
      (outDir ++ "/" ++ stem ++ "_vectors.safetensors",
       outDir ++ "/" ++ stem ++ "_docids.safetensors") := by
  have hdata : (stem ++ (⟨ext⟩ : String)).data = stem.data ++ ext :=
    String.data_append stem ⟨ext⟩
  have hpat : ∀ c2 ∈ ext, c2 ≠ '/' := by
    rcases hext with rfl | rfl | rfl <;> decide
  have hslash : ∀ c ∈ stem.data ++ ext, c ≠ '/' := by
    intro c hc
    rcases List.mem_append.1 hc with hc | hc
    · exact (hno c hc).2
    · exact hpat c hc
  have hext0 : baseNameL ext = [] := by
    rcases hext with rfl | rfl | rfl <;> decide
  have hb : baseName (stem ++ (⟨ext⟩ : String)) = stem := by
    unfold baseName
    rw [hdata, basenameOfL_noslash _ hslash,
      baseNameL_append stem.data ext (fun c hc => (hno c hc).1),
      hext0, List.append_nil]
  unfold targetPaths
  rw [hb]

theorem c7_output_names_witness :
    targetPaths "out" ("data2" ++ (⟨patJson⟩ : String)) =
      ("out" ++ "/" ++ "data2" ++ "_vectors.safetensors",
       "out" ++ "/" ++ "data2" ++ "_docids.safetensors") :=
  c7_output_names "out" "data2" patJson (Or.inl rfl) (by decide)

/-- Claim C8: the opener is chosen purely from the path's ending —
`.gz` gives gzip decompression, otherwise `.jsonl`/`.json` gives plain
text, and any other ending is a fatal `ValueError` for that file,
raised before the reader touches a single line (the result does not
depend on the file's lines at all). -/
theorem c8_extension_dispatch (p : String) :
    (endsWithB p patGz = true → openerFor p = .ok .gzipO) ∧
    (endsWithB p patGz = false →
      (endsWithB p patJsonl || endsWithB p patJson) = true →
      openerFor p = .ok .plainO) ∧
    ((endsWithB p patGz || endsWithB p patJsonl || endsWithB p patJson) = false →
      openerFor p = .error .badExtension ∧
      ∀ (fs : FS) (ov : Bool) (outDir : String) (lines lines2 : List (Option JValue)),
        fs.inputExists = true →
        (!ov && (fs.vectorsExists || fs.docidsExists)) = false →
        processFile fs ov outDir p lines = ([], some .badExtension) ∧
        processFile fs ov outDir p lines = processFile fs ov outDir p lines2) := by
  refine ⟨?_, ?_, ?_⟩
  · intro h
    unfold openerFor
    rw [h]
    rfl
  · intro hgz hor
    unfold openerFor
    rw [hgz, hor]
    rfl
  · intro h
    simp only [Bool.or_eq_false_iff] at h
    obtain ⟨⟨hgz, hjl⟩, hj⟩ := h
    have hop : openerFor p = .error .badExtension := by
      unfold openerFor
      rw [hgz, hjl, hj]
      try rfl
    refine ⟨hop, ?_⟩
    intro fs ov outDir lines lines2 h1 h2
    constructor
    · unfold processFile
      rw [h1, h2, hop]
      try rfl
    · unfold processFile
      rw [h1, h2, hop]
      try rfl

theorem c8_extension_dispatch_witness :
    openerFor "a.gz" = .ok .gzipO ∧
    openerFor "b.jsonl" = .ok .plainO ∧
    openerFor "c.txt" = .error .badExtension ∧
    processFile ⟨true, false, false⟩ false "out" "c.txt" [] =
      ([], some .badExtension) := by
  refine ⟨(c8_extension_dispatch "a.gz").1 (by decide),
    (c8_extension_dispatch "b.jsonl").2.1 (by decide) (by decide),
    ((c8_extension_dispatch "c.txt").2.2 (by decide)).1,
    (((c8_extension_dispatch "c.txt").2.2 (by decide)).2
      ⟨true, false, false⟩ false "out" [] [] rfl rfl).1⟩

/-- Claim C10: when the line loop finishes with zero accumulated docid
rows, the tensor-building step (`torch.tensor` or `pad_sequence`) fails
and the task aborts with nothing written; dually, any run of
`process_file` that completes without error wrote exactly the two
artifacts and both have at least one row, so an empty artifact pair is
never produced. -/
theorem c10_no_empty_outputs :
    (∀ (fs : FS) (ov : Bool) (outDir p : String) (lines : List (Option JValue))
        (vs : List (List JValue)) (o : Opener),
      fs.inputExists = true →
      (!ov && (fs.vectorsExists || fs.docidsExists)) = false →
      openerFor p = .ok o →
      processLines lines = .ok (vs, []) →
      ∃ e, (e = PErr.stackError ∨ e = PErr.padError) ∧
        processFile fs ov outDir p lines = ([], some e)) ∧
    (∀ (fs : FS) (ov : Bool) (outDir p : String) (lines : List (Option JValue))
        (ws : List WriteEvt),
      processFile fs ov outDir p lines = (ws, none) →
      ∃ vrows drows,
        ws = [((targetPaths outDir p).1, Tensor.floatT vrows),
              ((targetPaths outDir p).2, Tensor.intT drows)] ∧
        0 < vrows.length ∧ 0 < drows.length) := by
  constructor
  · intro fs ov outDir p lines vs o h1 h2 h3 h4
    cases hmk : mkVectors vs with
    | error e =>
      refine ⟨e, Or.inl (mkVectors_error_stack vs e hmk), ?_⟩
      unfold processFile
      simp only [h1, h2, h3, h4, hmk]
      rfl
    | ok v =>
      refine ⟨.padError, Or.inr rfl, ?_⟩
      unfold processFile
      simp only [h1, h2, h3, h4, hmk]
      rfl
  · intro fs ov outDir p lines ws h
    unfold processFile at h
    cases hin : fs.inputExists with
    | false => simp only [hin] at h; simp at h
    | true =>
      cases hcol : (!ov && (fs.vectorsExists || fs.docidsExists)) with
      | true => simp only [hin, hcol] at h; simp at h
      | false =>
        cases hop : openerFor p with
        | error e => simp only [hin, hcol, hop] at h; simp at h
        | ok o =>
          cases hpl : processLines lines with
          | error e => simp only [hin, hcol, hop, hpl] at h; simp at h
          | ok pr =>
            obtain ⟨vs, ds⟩ := pr
            cases hmk : mkVectors vs with
            | error e => simp only [hin, hcol, hop, hpl, hmk] at h; simp at h
            | ok v =>
              cases hde : ds.isEmpty with
              | true => simp only [hin, hcol, hop, hpl, hmk, hde] at h; simp at h
              | false =>
                simp only [hin, hcol, hop, hpl, hmk, hde] at h
                simp at h
                refine ⟨v, padSeq ds, h.symm, ?_, ?_⟩
                · rw [mkVectors_ok_length vs v hmk]
                  have hds := processLines_len lines vs ds hpl
                  cases ds with
                  | nil => simp at hde
                  | cons a t =>
                    simp only [List.length_cons] at hds
                    omega
                · rw [show (padSeq ds).length = ds.length by simp [padSeq]]
                  cases ds with
                  | nil => simp at hde
                  | cons a t => simp

def c10Lines : List (Option JValue) :=
  [some (.jobj [("vector", .jarr [.jfloat 1]), ("docid", .jstr "d")])]

theorem c10_no_empty_outputs_witness :
    (∃ e, (e = PErr.stackError ∨ e = PErr.padError) ∧
      processFile ⟨true, false, false⟩ true "out" "h.json" [] = ([], some e)) ∧
    (∃ vrows drows,
      ([((targetPaths "out" "h2.json").1, Tensor.floatT [[1]]),
        ((targetPaths "out" "h2.json").2, Tensor.intT [[100]])] : List WriteEvt) =
        [((targetPaths "out" "h2.json").1, Tensor.floatT vrows),
         ((targetPaths "out" "h2.json").2, Tensor.intT drows)] ∧
        0 < vrows.length ∧ 0 < drows.length) :=
  ⟨c10_no_empty_outputs.1 ⟨true, false, false⟩ true "out" "h.json" [] [] .plainO
      rfl rfl rfl rfl,
    c10_no_empty_outputs.2 ⟨true, false, false⟩ true "out" "h2.json" c10Lines
      [((targetPaths "out" "h2.json").1, Tensor.floatT [[1]]),
       ((targetPaths "out" "h2.json").2, Tensor.intT [[100]])] rfl⟩

end JsonToBin
